import Mathlib

/-!
Verification of the taxi fleet allocation engine (`sensitivity.py`, `optimize.py`).

The engine builds a mixed-integer program minimizing total unmet demand:
for each (zone, hour) pair an assignment variable `x` and an unmet slack `u`,
coverage constraints `r * x + u >= d`, and one hourly fleet-capacity
constraint per hour.  The external MILP solver (CBC driven through PuLP) is
modelled as an oracle `Solver : Model -> SolverOut` returning a status string
and optional per-variable values; everything the Python code does around that
call (data preparation, model construction, solution extraction, the
sensitivity sweep and the per-hour marginal-value analysis) is embedded
shallowly below.  Floating-point demand values are modelled as rationals;
wall-clock fields (`runtime_sec`, the solver time limit, the verbosity flag)
are not modelled since no property here depends on them.
-/

namespace TaxiAlloc

abbrev Zone := Int

abbrev Hour := Int

/-- One row of the demand table: columns `pickup_community_area`, `hour`,
`demand` (`sensitivity.py` lines 19-22). -/
structure DemandRow where
  area : Zone
  hour : Hour
  demand : ℚ
deriving DecidableEq

abbrev Table := List DemandRow

/-- `sorted(demand_df["pickup_community_area"].unique().tolist())`
(`sensitivity.py` line 41): the distinct zones in ascending order. -/
def zonesOf (tbl : Table) : List Zone :=
  List.insertionSort (· ≤ ·) (tbl.map (·.area)).dedup

/-- `sorted(demand_df["hour"].unique().tolist())` (`sensitivity.py` line 42). -/
def hoursOf (tbl : Table) : List Hour :=
  List.insertionSort (· ≤ ·) (tbl.map (·.hour)).dedup

/-- Lookup in the demand dictionary `d` built on lines 43-44.  The dict is
filled row by row, so for duplicate (zone, hour) keys the last row wins. -/
def dLookup (tbl : Table) (a : Zone) (h : Hour) : Option ℚ :=
  (tbl.reverse.find? (fun row => row.area == a && row.hour == h)).map (·.demand)

/-- The (zone, hour) pairs enumerated by the model builder: zones in the
outer loop, hours in the inner loop (`for a in A: for h in H`). -/
def pairsOf (tbl : Table) : List (Zone × Hour) :=
  (zonesOf tbl).flatMap (fun a => (hoursOf tbl).map (fun h => (a, h)))

/-- Association-list lookup standing for Python `dict.get` on the per-hour
capacity override mapping. -/
def capLookup (l : List (Hour × Int)) (h : Hour) : Option Int :=
  (l.find? (fun p => p.1 == h)).map (·.2)

/-- The effective capacity schedule built on `sensitivity.py` lines 45-49:
with no override, `{h: int(F) for h in H}`; with an override dictionary,
`{int(h): int(hour_caps.get(h, F)) for h in H}`.  Either way the keys are
exactly the hours of the demand table, so override entries for other hours
are dropped. -/
def hourCapsEff (tbl : Table) (F : Int) : Option (List (Hour × Int)) → List (Hour × Int)
  | none => (hoursOf tbl).map (fun h => (h, F))
  | some oc => (hoursOf tbl).map (fun h => (h, (capLookup oc h).getD F))

/-- The exception raised by the raw dictionary access `d[(a, h)]` on
`sensitivity.py` line 65 when a (zone, hour) pair of the cross product has no
row in the demand table. -/
def keyError : String := "KeyError: (zone, hour) pair absent from demand table"

/-- The demand coefficient of each coverage constraint, read by the raw
access `d[(a, h)]` (`sensitivity.py` line 65): the first absent pair raises
`KeyError`. -/
def demList (tbl : Table) : List (Zone × Hour) → Except String (List (Zone × Hour × ℚ))
  | [] => .ok []
  | (a, h) :: ps =>
    match dLookup tbl a h with
    | some v => (demList tbl ps).map (fun rest => (a, h, v) :: rest)
    | none => .error keyError

/-- The in-memory MILP description handed to the external solver: index sets,
throughput rate, variable-domain flag, the demand coefficient of each
coverage constraint `r * x + u >= d`, and the right-hand side of each hourly
capacity constraint `sum_a x(a,h) <= cap(h)`. -/
structure Model where
  zones : List Zone
  hours : List Hour
  r : ℚ
  int_vars : Bool
  dems : List (Zone × Hour × ℚ)
  caps : List (Hour × Int)

/-- What the external MILP solver hands back: a status string
(`pl.LpStatus[status]`) and, per variable, `Variable.value()` which may be
`None`. -/
structure SolverOut where
  status : String
  xval : Zone → Hour → Option ℚ
  uval : Zone → Hour → Option ℚ

/-- The external MILP solving capability, abstracted as an oracle. -/
abbrev Solver := Model → SolverOut

/-- One row of the allocations table (`sensitivity.py` line 87). -/
structure SolRow where
  area : Zone
  hour : Hour
  demand : ℚ
  x_taxis : ℚ
  served : ℚ
  unmet : ℚ
deriving DecidableEq

/-- The summary dictionary (`sensitivity.py` lines 95-105), minus the
wall-clock `runtime_sec` field. -/
structure Summary where
  status : String
  objective_unmet : ℚ
  demand_total : ℚ
  served_total : ℚ
  served_pct : ℚ
  F : Int
  r : ℚ
  int_vars : Bool
deriving DecidableEq

/-- Return value of `solve_allocation`. -/
structure AllocResult where
  allocations : List SolRow
  summary : Summary
deriving DecidableEq

/-- Model construction, `sensitivity.py` lines 41-69: index sets, demand
coefficients (raising `KeyError` on an uncovered pair), and the effective
capacity schedule. -/
def buildModel (tbl : Table) (F : Int) (r : ℚ) (int_vars : Bool)
    (hour_caps : Option (List (Hour × Int))) : Except String Model :=
  match demList tbl (pairsOf tbl) with
  | .error e => .error e
  | .ok dems => .ok ⟨zonesOf tbl, hoursOf tbl, r, int_vars, dems, hourCapsEff tbl F hour_caps⟩

/-- Solution extraction, `sensitivity.py` lines 79-87: unset solver values
become `0.0`, and `served` is recomputed as `min(d, r * x)`. -/
def extractRows (out : SolverOut) (r : ℚ) (dems : List (Zone × Hour × ℚ)) : List SolRow :=
  dems.map (fun t =>
    let xv := (out.xval t.1 t.2.1).getD 0
    let uv := (out.uval t.1 t.2.1).getD 0
    ⟨t.1, t.2.1, t.2.2, xv, min t.2.2 (r * xv), uv⟩)

/-- The metrics block, `sensitivity.py` lines 89-105. -/
def mkSummary (status : String) (rows : List SolRow) (F : Int) (r : ℚ)
    (int_vars : Bool) : Summary :=
  let total_demand := (rows.map (·.demand)).sum
  let total_unmet := (rows.map (·.unmet)).sum
  let total_served := (rows.map (·.served)).sum
  ⟨status, total_unmet, total_demand, total_served,
    if total_demand = 0 then 0 else total_served / total_demand, F, r, int_vars⟩

/-- `solve_allocation` (`sensitivity.py` lines 26-106), with the CBC call
abstracted as the `solver` oracle.  Note the function performs no input
validation: the only failure is the `KeyError` from the demand lookup. -/
def solve_allocation (solver : Solver) (tbl : Table) (F : Int) (r : ℚ)
    (int_vars : Bool) (hour_caps : Option (List (Hour × Int))) : Except String AllocResult :=
  match buildModel tbl F r int_vars hour_caps with
  | .error e => .error e
  | .ok m =>
    let out := solver m
    let rows := extractRows out r m.dems
    .ok ⟨rows, mkSummary out.status rows F r int_vars⟩

/-- Does every (zone, hour) pair of the cross product have a row in the
table?  Exactly when this holds, the raw accesses `d[(a, h)]` all succeed. -/
def covers (tbl : Table) : Bool :=
  (pairsOf tbl).all (fun p => (dLookup tbl p.1 p.2).isSome)

/-- The objective value `summary["objective_unmet"]` of one solve, read off
the result when the solve succeeds. -/
def objectiveAt (solver : Solver) (tbl : Table) (F : Int) (r : ℚ) (int_vars : Bool)
    (hour_caps : Option (List (Hour × Int))) : ℚ :=
  match solve_allocation solver tbl F r int_vars hour_caps with
  | .ok res => res.summary.objective_unmet
  | .error _ => 0

/-- Inner loop of `run_sensitivity` (`sensitivity.py` lines 117-120): one
solve per capacity `F`, for a fixed rate `r`, in grid order. -/
def rowsForR (solver : Solver) (tbl : Table) (int_vars : Bool) (r : ℚ) :
    List Int → Except String (List Summary)
  | [] => .ok []
  | F :: Fs =>
    match solve_allocation solver tbl F r int_vars none with
    | .error e => .error e
    | .ok res => (rowsForR solver tbl int_vars r Fs).map (fun rest => res.summary :: rest)

/-- Outer loop of `run_sensitivity` (`sensitivity.py` lines 116-120): rates
outer, capacities inner, rows appended in loop order. -/
def sweep (solver : Solver) (tbl : Table) (int_vars : Bool) (F_grid : List Int) :
    List ℚ → Except String (List Summary)
  | [] => .ok []
  | r :: rs =>
    match rowsForR solver tbl int_vars r F_grid with
    | .error e => .error e
    | .ok l => (sweep solver tbl int_vars F_grid rs).map (fun rest => l ++ rest)

/-- The sort key of `sens_df.sort_values(["r", "F"])`: ascending
lexicographic order on (throughput rate, capacity). -/
def sensLE (s t : Summary) : Prop := s.r < t.r ∨ (s.r = t.r ∧ s.F ≤ t.F)

instance : DecidableRel sensLE := fun s t => by unfold sensLE; infer_instance

instance : IsTrans Summary sensLE where
  trans s t w hst htw := by
    rcases hst with h1 | ⟨h1, h2⟩ <;> rcases htw with h3 | ⟨h3, h4⟩
    · exact Or.inl (h1.trans h3)
    · exact Or.inl (h3 ▸ h1)
    · exact Or.inl (h1 ▸ h3)
    · exact Or.inr ⟨h1.trans h3, h2.trans h4⟩

instance : IsTotal Summary sensLE where
  total s t := by
    rcases lt_trichotomy s.r t.r with h | h | h
    · exact Or.inl (Or.inl h)
    · rcases le_total s.F t.F with h2 | h2
      · exact Or.inl (Or.inr ⟨h, h2⟩)
      · exact Or.inr (Or.inr ⟨h.symm, h2⟩)
    · exact Or.inr (Or.inl h)

/-- `pd.DataFrame([]).sort_values(["r", "F"])`: sorting an empty frame built
from an empty record list raises `KeyError` because the frame has no columns
at all. -/
def emptySortError : String := "KeyError: r"

/-- `run_sensitivity` (`sensitivity.py` lines 109-122): one solve per
(F, r) pair of the Cartesian grid, rate outer / capacity inner, then
`sort_values(["r", "F"])` over the collected summaries.  With no summaries
the final `pd.DataFrame([]).sort_values` call raises `KeyError`. -/
def run_sensitivity (solver : Solver) (tbl : Table) (F_grid : List Int)
    (r_grid : List ℚ) (int_vars : Bool) : Except String (List Summary) :=
  match sweep solver tbl int_vars F_grid r_grid with
  | .error e => .error e
  | .ok l => if l.isEmpty then .error emptySortError else .ok (List.insertionSort sensLE l)

/-- One row of the marginal-value table (`sensitivity.py` line 143). -/
structure MVRow where
  hour : Hour
  deltaF_at_hour : Int
  unmet_reduction : ℚ
deriving DecidableEq

/-- The perturbed capacity dictionary of `marginal_value_per_hour`
(`sensitivity.py` lines 138-139): `{hh: F for hh in hours}` then
`caps[h] = F + delta`, i.e. `F + delta` at hour `h` and `F` elsewhere. -/
def capsFor (hours : List Hour) (h : Hour) (F delta : Int) : List (Hour × Int) :=
  hours.map (fun hh => (hh, if hh = h then F + delta else F))

/-- The sort key of `sort_values("hour")`. -/
def mvLE (s t : MVRow) : Prop := s.hour ≤ t.hour

instance : DecidableRel mvLE := fun s t => by unfold mvLE; infer_instance

instance : IsTrans MVRow mvLE where
  trans _ _ _ h1 h2 := le_trans h1 h2

instance : IsTotal MVRow mvLE where
  total s t := le_total s.hour t.hour

/-- `pd.DataFrame([]).sort_values("hour")` on a columnless empty frame. -/
def emptySortHourError : String := "KeyError: hour"

/-- Loop body of `marginal_value_per_hour` (`sensitivity.py` lines 137-143):
each hour is perturbed independently, against the same unperturbed base. -/
def mvRows (solver : Solver) (tbl : Table) (F : Int) (r : ℚ) (delta : Int)
    (int_vars : Bool) (base_unmet : ℚ) (hours : List Hour) :
    List Hour → Except String (List MVRow)
  | [] => .ok []
  | h :: hs =>
    match solve_allocation solver tbl F r int_vars (some (capsFor hours h F delta)) with
    | .error e => .error e
    | .ok res =>
      (mvRows solver tbl F r delta int_vars base_unmet hours hs).map
        (fun rest => ⟨h, delta, base_unmet - res.summary.objective_unmet⟩ :: rest)

/-- `marginal_value_per_hour` (`sensitivity.py` lines 125-144): baseline
solve with uniform capacity `F`, one perturbed solve per hour, rows sorted by
hour.  With no hours the final `sort_values` raises `KeyError`. -/
def marginal_value_per_hour (solver : Solver) (tbl : Table) (F : Int) (r : ℚ)
    (delta : Int) (int_vars : Bool) : Except String (List MVRow) :=
  match solve_allocation solver tbl F r int_vars none with
  | .error e => .error e
  | .ok base =>
    match mvRows solver tbl F r delta int_vars base.summary.objective_unmet
        (hoursOf tbl) (hoursOf tbl) with
    | .error e => .error e
    | .ok out => if out.isEmpty then .error emptySortHourError else .ok (List.insertionSort mvLE out)

/-- Python `str.lower()`, modelled character by character. -/
def lowerStr (s : String) : String := ⟨s.data.map Char.toLower⟩

/-- Python `str.strip()`: whitespace removed from both ends. -/
def stripStr (s : String) : String :=
  ⟨((s.data.dropWhile Char.isWhitespace).reverse.dropWhile Char.isWhitespace).reverse⟩

/-- The key normalization of `load_demand` (`sensitivity.py` line 12):
`c.lower().strip()`. -/
def normCol (c : String) : String := stripStr (lowerStr c)

/-- The keys of the dict `cols = {c.lower().strip(): c for c in df.columns}`. -/
def colKeys (cols : List String) : List String := cols.map normCol

/-- The required columns (`sensitivity.py` line 14). -/
def needCols : List String := ["pickup_community_area", "hour", "demand"]

/-- The first required column reported missing by the validation loop
(`sensitivity.py` lines 15-17): `n not in cols and n not in df.columns`. -/
def missingCol (cols : List String) : Option String :=
  needCols.find? (fun n => !(colKeys cols).contains n && !cols.contains n)

/-- The `ValueError` message of `load_demand` (modulo quoting of the column
name, which the embedding drops): it names the missing column, the path, and
the columns actually found. -/
def colMsg (n path : String) (cols : List String) : String :=
  "Missing column " ++ n ++ " in " ++ path ++ ". Found: " ++ String.intercalate ", " cols

/-- The column validation of `load_demand` (`sensitivity.py` lines 10-17),
acting on the list of column names of the loaded frame.  (The subsequent
dtype casts and the final sort do not affect which inputs validate.) -/
def load_demand_check (path : String) (cols : List String) : Except String Unit :=
  match missingCol cols with
  | some n => .error (colMsg n path cols)
  | none => .ok ()

/-! ### Exact optimum of the built MILP

The model built by `solve_allocation` is: minimize `sum u(a,h)` subject to
`r * x(a,h) + u(a,h) >= d(a,h)`, `u >= 0`, `x >= 0` integer, and
`sum_a x(a,h) <= cap(h)`.  For a fixed assignment `x`, the optimal slack is
`u(a,h) = max 0 (d(a,h) - r * x(a,h))`, so the exact optimum is the minimum
of `sum max 0 (d - r * x)` over the feasible integer assignments; any
feasible assignment satisfies `x(a,h) <= cap(h)` (a summand is at most the
sum), so enumerating `x(a,h) <= cap(h)` loses nothing.  Zones and hours are
indexed densely by `Fin` here. -/

abbrev GridIx (nA nH : ℕ) := Fin nA × Fin nH

/-- Objective of the built MILP after eliminating the slack variables:
the total unmet demand left by the assignment `x`. -/
def unmetOfAlloc (nA nH : ℕ) (d : GridIx nA nH → ℚ) (r : ℚ) (x : GridIx nA nH → ℕ) : ℚ :=
  ∑ p : GridIx nA nH, max 0 (d p - r * (x p : ℚ))

/-- The hourly fleet-capacity constraints of the built MILP. -/
def feasAlloc (nA nH : ℕ) (cap : Fin nH → ℕ) (x : GridIx nA nH → ℕ) : Prop :=
  ∀ j : Fin nH, (∑ i : Fin nA, x (i, j)) ≤ cap j

instance feasAllocDec (nA nH : ℕ) (cap : Fin nH → ℕ) : DecidablePred (feasAlloc nA nH cap) :=
  fun x => by unfold feasAlloc; infer_instance

/-- The (finite, exhaustive) candidate set of feasible assignments. -/
def allocCands (nA nH : ℕ) (cap : Fin nH → ℕ) : Finset (GridIx nA nH → ℕ) :=
  (Fintype.piFinset (fun p => Finset.range (cap p.2 + 1))).filter (feasAlloc nA nH cap)

lemma zero_mem_allocCands (nA nH : ℕ) (cap : Fin nH → ℕ) :
    (fun _ => 0) ∈ allocCands nA nH cap := by
  unfold allocCands
  refine Finset.mem_filter.mpr ⟨Fintype.mem_piFinset.mpr ?_, ?_⟩
  · intro p; exact Finset.mem_range.mpr (Nat.succ_pos _)
  · intro j; simp

lemma allocCands_nonempty (nA nH : ℕ) (cap : Fin nH → ℕ) :
    (allocCands nA nH cap).Nonempty :=
  ⟨_, zero_mem_allocCands nA nH cap⟩

/-- The exact (optimal) total unmet demand of the MILP built by
`solve_allocation` for dense demand `d`, rate `r` and capacity schedule
`cap`. -/
def optUnmet (nA nH : ℕ) (d : GridIx nA nH → ℚ) (r : ℚ) (cap : Fin nH → ℕ) : ℚ :=
  (allocCands nA nH cap).inf' (allocCands_nonempty nA nH cap) (unmetOfAlloc nA nH d r)

/-- Every feasible assignment is in the candidate set: each summand of the
hourly total is at most the capacity. -/
lemma mem_allocCands_of_feas {nA nH : ℕ} {cap : Fin nH → ℕ} {x : GridIx nA nH → ℕ}
    (hx : feasAlloc nA nH cap x) : x ∈ allocCands nA nH cap := by
  unfold allocCands
  refine Finset.mem_filter.mpr ⟨Fintype.mem_piFinset.mpr ?_, hx⟩
  intro p
  refine Finset.mem_range.mpr (Nat.lt_succ_of_le ?_)
  calc x p = x (p.1, p.2) := by rw [Prod.mk.eta]
    _ ≤ ∑ i : Fin nA, x (i, p.2) :=
        Finset.single_le_sum (f := fun i => x (i, p.2)) (fun i _ => Nat.zero_le _)
          (Finset.mem_univ p.1)
    _ ≤ cap p.2 := hx p.2

/-- The slack constraints of the built MILP, with the slack variables `u`
kept explicit: `u >= 0` and `r * x + u >= d` for every pair. -/
def coverFeas (nA nH : ℕ) (d : GridIx nA nH → ℚ) (r : ℚ) (x : GridIx nA nH → ℕ)
    (u : GridIx nA nH → ℚ) : Prop :=
  ∀ p : GridIx nA nH, 0 ≤ u p ∧ d p ≤ r * (x p : ℚ) + u p

/-- `optUnmet` is a true lower bound for the MILP with explicit slacks:
no feasible (x, u) has objective below it. -/
lemma optUnmet_le_of_feas {nA nH : ℕ} {d : GridIx nA nH → ℚ} {r : ℚ}
    {cap : Fin nH → ℕ} {x : GridIx nA nH → ℕ} {u : GridIx nA nH → ℚ}
    (hx : feasAlloc nA nH cap x) (hu : coverFeas nA nH d r x u) :
    optUnmet nA nH d r cap ≤ ∑ p : GridIx nA nH, u p := by
  refine le_trans (Finset.inf'_le _ (mem_allocCands_of_feas hx)) ?_
  unfold unmetOfAlloc
  refine Finset.sum_le_sum (fun p _ => ?_)
  rcases hu p with ⟨h0, hcov⟩
  exact max_le h0 (by linarith)

/-- `optUnmet` is attained by a feasible (x, u) of the MILP with explicit
slacks. -/
lemma optUnmet_attained (nA nH : ℕ) (d : GridIx nA nH → ℚ) (r : ℚ) (cap : Fin nH → ℕ) :
    ∃ x u, feasAlloc nA nH cap x ∧ coverFeas nA nH d r x u ∧
      (∑ p : GridIx nA nH, u p) = optUnmet nA nH d r cap := by
  obtain ⟨x, hmem, hval⟩ :=
    Finset.exists_mem_eq_inf' (allocCands_nonempty nA nH cap) (unmetOfAlloc nA nH d r)
  refine ⟨x, fun p => max 0 (d p - r * (x p : ℚ)), (Finset.mem_filter.mp hmem).2, ?_, ?_⟩
  · intro p
    refine ⟨le_max_left _ _, ?_⟩
    have := le_max_right 0 (d p - r * (x p : ℚ))
    linarith
  · unfold optUnmet
    rw [hval]
    rfl

/-! ### Supporting lemmas and concrete fixtures -/

/-- The demand coefficients when every pair of the cross product is covered:
the dictionary value of each pair. -/
def demsC (tbl : Table) : List (Zone × Hour × ℚ) :=
  (pairsOf tbl).map (fun p => (p.1, p.2, (dLookup tbl p.1 p.2).getD 0))

/-- The model `buildModel` produces on a covered table. -/
def mkModelC (tbl : Table) (F : Int) (r : ℚ) (int_vars : Bool)
    (hour_caps : Option (List (Hour × Int))) : Model :=
  ⟨zonesOf tbl, hoursOf tbl, r, int_vars, demsC tbl, hourCapsEff tbl F hour_caps⟩

/-- The result `solve_allocation` produces on a covered table. -/
def resC (solver : Solver) (tbl : Table) (F : Int) (r : ℚ) (int_vars : Bool)
    (hour_caps : Option (List (Hour × Int))) : AllocResult :=
  let m := mkModelC tbl F r int_vars hour_caps
  let out := solver m
  let rows := extractRows out r m.dems
  ⟨rows, mkSummary out.status rows F r int_vars⟩

lemma demList_ok (tbl : Table) :
    ∀ ps : List (Zone × Hour), (∀ p ∈ ps, (dLookup tbl p.1 p.2).isSome = true) →
      demList tbl ps = .ok (ps.map (fun p => (p.1, p.2, (dLookup tbl p.1 p.2).getD 0)))
  | [], _ => rfl
  | (a, h) :: ps, hall => by
    have hhead : (dLookup tbl a h).isSome = true := hall (a, h) (List.mem_cons_self _ _)
    obtain ⟨v, hv⟩ := Option.isSome_iff_exists.mp hhead
    have htail := demList_ok tbl ps (fun p hp => hall p (List.mem_cons_of_mem _ hp))
    unfold demList
    rw [hv, htail]
    simp [Except.map, hv]

lemma covers_forall {tbl : Table} (hc : covers tbl = true) :
    ∀ p ∈ pairsOf tbl, (dLookup tbl p.1 p.2).isSome = true := by
  intro p hp
  exact List.all_eq_true.mp hc p hp

lemma buildModel_ok {tbl : Table} (hc : covers tbl = true) (F : Int) (r : ℚ)
    (int_vars : Bool) (hour_caps : Option (List (Hour × Int))) :
    buildModel tbl F r int_vars hour_caps = .ok (mkModelC tbl F r int_vars hour_caps) := by
  unfold buildModel
  rw [demList_ok tbl (pairsOf tbl) (covers_forall hc)]
  rfl

lemma solve_ok (solver : Solver) {tbl : Table} (hc : covers tbl = true) (F : Int) (r : ℚ)
    (int_vars : Bool) (hour_caps : Option (List (Hour × Int))) :
    solve_allocation solver tbl F r int_vars hour_caps =
      .ok (resC solver tbl F r int_vars hour_caps) := by
  unfold solve_allocation
  rw [buildModel_ok hc]
  rfl

lemma solve_ok_inv {solver : Solver} {tbl : Table} {F : Int} {r : ℚ} {int_vars : Bool}
    {hour_caps : Option (List (Hour × Int))} {res : AllocResult}
    (hok : solve_allocation solver tbl F r int_vars hour_caps = .ok res) :
    ∃ m, buildModel tbl F r int_vars hour_caps = .ok m ∧
      res.allocations = extractRows (solver m) r m.dems := by
  unfold solve_allocation at hok
  cases hm : buildModel tbl F r int_vars hour_caps with
  | error e => rw [hm] at hok; exact absurd hok (by simp)
  | ok m =>
    rw [hm] at hok
    refine ⟨m, rfl, ?_⟩
    cases hok
    rfl

lemma objectiveAt_covers (solver : Solver) {tbl : Table} (hc : covers tbl = true)
    (F : Int) (r : ℚ) (int_vars : Bool) (hour_caps : Option (List (Hour × Int))) :
    objectiveAt solver tbl F r int_vars hour_caps =
      (resC solver tbl F r int_vars hour_caps).summary.objective_unmet := by
  unfold objectiveAt
  rw [solve_ok solver hc]

lemma capLookup_mapped_mem (f : Hour → Int) :
    ∀ (hours : List Hour) (h : Hour), h ∈ hours →
      capLookup (hours.map (fun hh => (hh, f hh))) h = some (f h)
  | [], h, hmem => absurd hmem (List.not_mem_nil h)
  | hh :: hs, h, hmem => by
    by_cases hEq : hh = h
    · subst hEq
      simp [capLookup, List.find?]
    · have : h ∈ hs := by
        rcases List.mem_cons.mp hmem with h1 | h1
        · exact absurd h1.symm hEq
        · exact h1
      have ih := capLookup_mapped_mem f hs h this
      simp only [capLookup, List.map_cons, List.find?] at ih ⊢
      rw [show ((hh, f hh).1 == h) = false by simpa using hEq]
      exact ih

lemma capLookup_mapped_not_mem (f : Hour → Int) :
    ∀ (hours : List Hour) (h : Hour), h ∉ hours →
      capLookup (hours.map (fun hh => (hh, f hh))) h = none
  | [], _, _ => rfl
  | hh :: hs, h, hmem => by
    have h1 : hh ≠ h := fun hEq => hmem (hEq ▸ List.mem_cons_self _ _)
    have h2 : h ∉ hs := fun hIn => hmem (List.mem_cons_of_mem _ hIn)
    have ih := capLookup_mapped_not_mem f hs h h2
    simp only [capLookup, List.map_cons, List.find?] at ih ⊢
    rw [show ((hh, f hh).1 == h) = false by simpa using h1]
    exact ih

lemma hoursOf_ne_nil {tbl : Table} (hne : tbl ≠ []) : hoursOf tbl ≠ [] := by
  unfold hoursOf
  intro hcon
  have hlen := congrArg List.length hcon
  rw [List.length_insertionSort] at hlen
  have : (tbl.map (·.hour)).dedup = [] := List.eq_nil_of_length_eq_zero hlen
  rw [List.dedup_eq_nil, List.map_eq_nil_iff] at this
  exact hne this

/-- A concrete solver oracle that reports a value for every variable. -/
def cSolver : Solver := fun _ => ⟨"Optimal", fun _ _ => some 1, fun _ _ => some 0⟩

/-- A concrete solver oracle that reports no value for any variable. -/
def cSolverNone : Solver := fun _ => ⟨"Not Solved", fun _ _ => none, fun _ _ => none⟩

/-- A one-row demand table (covers its 1 x 1 cross product). -/
def tbl1C : Table := [⟨1, 0, 5⟩]

/-- A table whose rows do not cover the 2 x 2 cross product of its zones
{1, 2} and hours {0, 1}: (1, 1) and (2, 0) have no row. -/
def tbl2C : Table := [⟨1, 0, 10⟩, ⟨2, 1, 8⟩]

/-- The 2-zone / 2-hour scenario table of the specification. -/
def tbl4C : Table := [⟨1, 0, 10⟩, ⟨1, 1, 5⟩, ⟨2, 0, 8⟩, ⟨2, 1, 12⟩]

lemma extractRows_spec (out : SolverOut) (r : ℚ) (dems : List (Zone × Hour × ℚ))
    (i : ℕ) (hi : i < (extractRows out r dems).length) :
    (extractRows out r dems)[i].served =
      min (extractRows out r dems)[i].demand (r * (extractRows out r dems)[i].x_taxis) ∧
    (extractRows out r dems)[i].served ≤ (extractRows out r dems)[i].demand ∧
    (extractRows out r dems)[i].served ≤ r * (extractRows out r dems)[i].x_taxis ∧
    (extractRows out r dems)[i].x_taxis =
      (out.xval (extractRows out r dems)[i].area (extractRows out r dems)[i].hour).getD 0 ∧
    (extractRows out r dems)[i].unmet =
      (out.uval (extractRows out r dems)[i].area (extractRows out r dems)[i].hour).getD 0 := by
  have hi2 : i < dems.length := by simpa [extractRows] using hi
  simp only [extractRows, List.getElem_map]
  exact ⟨trivial, min_le_left _ _, min_le_right _ _, trivial, trivial⟩

/-! ### The claims -/

/-- C1, counterexample: on the empty demand table, with throughput rate
`r = -1 ≤ 0` and a negative capacity override, `solve_allocation` does not
fail with a validation error; the call succeeds, so the empty table does
reach the solver. -/
theorem C1_cex_empty_table_reaches_solver :
    (solve_allocation cSolver [] 0 (-1) true (some [(0, -5)])).isOk = true := by
  decide

/-- C1, amended: `solve_allocation` performs no input validation at all.
For every table that covers its zone x hour cross product (the empty table
included), every fleet size, every throughput rate (non-positive rates
included) and every capacity override (negative capacities included), the
call returns a result whose status is the one reported by the solver — a
solve is always attempted, never a validation error. -/
theorem C1_no_input_validation (solver : Solver) (tbl : Table) (F : Int) (r : ℚ)
    (int_vars : Bool) (hour_caps : Option (List (Hour × Int))) (hc : covers tbl = true) :
    solve_allocation solver tbl F r int_vars hour_caps =
      .ok (resC solver tbl F r int_vars hour_caps) ∧
    (resC solver tbl F r int_vars hour_caps).summary.status =
      (solver (mkModelC tbl F r int_vars hour_caps)).status :=
  ⟨solve_ok solver hc F r int_vars hour_caps, rfl⟩

theorem C1_witness :
    covers ([] : Table) = true ∧
    (solve_allocation cSolver [] 0 (-1) true (some [(0, -5)]) =
      .ok (resC cSolver [] 0 (-1) true (some [(0, -5)])) ∧
    (resC cSolver [] 0 (-1) true (some [(0, -5)])).summary.status =
      (cSolver (mkModelC [] 0 (-1) true (some [(0, -5)]))).status) :=
  ⟨by decide, C1_no_input_validation cSolver [] 0 (-1) true (some [(0, -5)]) (by decide)⟩

/-- C2: the code contradicts the claim.  On `tbl2C`, whose rows do not cover
the cross product of its zones and hours, the pair (1, 1) is enumerated
during model construction but the raw dictionary access `d[(a, h)]`
(`sensitivity.py` line 65) has no 0.0 default, so construction fails with a
`KeyError` instead of succeeding with demand 0.0. -/
theorem C2_keyError_on_uncovered_pair :
    ((1, 1) ∈ pairsOf tbl2C ∧ dLookup tbl2C 1 1 = none) ∧
    solve_allocation cSolver tbl2C 5 1 true none = .error keyError :=
  ⟨⟨by decide, by decide⟩, rfl⟩

/-- C3: in every successful solve, every row of the allocations table has
`served` recomputed as `min(demand, r * assigned)` from the extracted
assignment, hence `served ≤ demand` and `served ≤ r * assigned`. -/
theorem C3_served_recomputed (solver : Solver) (tbl : Table) (F : Int) (r : ℚ)
    (int_vars : Bool) (hour_caps : Option (List (Hour × Int))) (res : AllocResult)
    (hok : solve_allocation solver tbl F r int_vars hour_caps = .ok res)
    (i : ℕ) (hi : i < res.allocations.length) :
    res.allocations[i].served =
      min res.allocations[i].demand (r * res.allocations[i].x_taxis) ∧
    res.allocations[i].served ≤ res.allocations[i].demand ∧
    res.allocations[i].served ≤ r * res.allocations[i].x_taxis := by
  obtain ⟨m, hm, halloc⟩ := solve_ok_inv hok
  have hi' : i < (extractRows (solver m) r m.dems).length := halloc ▸ hi
  have hrow : res.allocations[i] = (extractRows (solver m) r m.dems)[i] :=
    List.getElem_of_eq halloc hi
  rw [hrow]
  obtain ⟨h1, h2, h3, _, _⟩ := extractRows_spec (solver m) r m.dems i hi'
  exact ⟨h1, h2, h3⟩

theorem C3_witness :
    (solve_allocation cSolver tbl1C 2 1 true none = .ok (resC cSolver tbl1C 2 1 true none)) ∧
    (0 < (resC cSolver tbl1C 2 1 true none).allocations.length) ∧
    ((resC cSolver tbl1C 2 1 true none).allocations[0].served =
      min (resC cSolver tbl1C 2 1 true none).allocations[0].demand
        (1 * (resC cSolver tbl1C 2 1 true none).allocations[0].x_taxis) ∧
    (resC cSolver tbl1C 2 1 true none).allocations[0].served ≤
      (resC cSolver tbl1C 2 1 true none).allocations[0].demand ∧
    (resC cSolver tbl1C 2 1 true none).allocations[0].served ≤
      1 * (resC cSolver tbl1C 2 1 true none).allocations[0].x_taxis) :=
  ⟨rfl, by decide,
    C3_served_recomputed cSolver tbl1C 2 1 true none (resC cSolver tbl1C 2 1 true none)
      rfl 0 (by decide)⟩

/-- C8: in every successful solve, each extracted row takes the value 0.0
for its assignment (resp. unmet slack) whenever the solver reports no value
for that variable, and extraction never fails: success of the call does not
depend on the solver oracle at all. -/
theorem C8_unset_values_zero (solver : Solver) (tbl : Table) (F : Int) (r : ℚ)
    (int_vars : Bool) (hour_caps : Option (List (Hour × Int))) (m : Model) (res : AllocResult)
    (hm : buildModel tbl F r int_vars hour_caps = .ok m)
    (hok : solve_allocation solver tbl F r int_vars hour_caps = .ok res)
    (i : ℕ) (hi : i < res.allocations.length) :
    ((solver m).xval res.allocations[i].area res.allocations[i].hour = none →
      res.allocations[i].x_taxis = 0) ∧
    ((solver m).uval res.allocations[i].area res.allocations[i].hour = none →
      res.allocations[i].unmet = 0) ∧
    ∀ solver2 : Solver, (solve_allocation solver2 tbl F r int_vars hour_caps).isOk = true := by
  obtain ⟨m', hm', halloc⟩ := solve_ok_inv hok
  rw [hm] at hm'
  cases hm'
  have hi' : i < (extractRows (solver m) r m.dems).length := halloc ▸ hi
  have hrow : res.allocations[i] = (extractRows (solver m) r m.dems)[i] :=
    List.getElem_of_eq halloc hi
  obtain ⟨_, _, _, hx, hu⟩ := extractRows_spec (solver m) r m.dems i hi'
  refine ⟨?_, ?_, ?_⟩
  · intro hnone
    rw [hrow] at hnone ⊢
    rw [hx, hnone]
    rfl
  · intro hnone
    rw [hrow] at hnone ⊢
    rw [hu, hnone]
    rfl
  · intro solver2
    unfold solve_allocation
    rw [hm]
    rfl

theorem C8_witness :
    (buildModel tbl1C 2 1 true none = .ok (mkModelC tbl1C 2 1 true none)) ∧
    (solve_allocation cSolverNone tbl1C 2 1 true none =
      .ok (resC cSolverNone tbl1C 2 1 true none)) ∧
    (0 < (resC cSolverNone tbl1C 2 1 true none).allocations.length) ∧
    (((cSolverNone (mkModelC tbl1C 2 1 true none)).xval
        (resC cSolverNone tbl1C 2 1 true none).allocations[0].area
        (resC cSolverNone tbl1C 2 1 true none).allocations[0].hour = none →
      (resC cSolverNone tbl1C 2 1 true none).allocations[0].x_taxis = 0) ∧
    ((cSolverNone (mkModelC tbl1C 2 1 true none)).uval
        (resC cSolverNone tbl1C 2 1 true none).allocations[0].area
        (resC cSolverNone tbl1C 2 1 true none).allocations[0].hour = none →
      (resC cSolverNone tbl1C 2 1 true none).allocations[0].unmet = 0) ∧
    ∀ solver2 : Solver, (solve_allocation solver2 tbl1C 2 1 true none).isOk = true) :=
  ⟨rfl, rfl, by decide,
    C8_unset_values_zero cSolverNone tbl1C 2 1 true none (mkModelC tbl1C 2 1 true none)
      (resC cSolverNone tbl1C 2 1 true none) rfl rfl 0 (by decide)⟩

/-- C10: with a partial per-hour override mapping, the effective capacity
schedule built by `solve_allocation` (and installed as the model's capacity
constraints) assigns the override value to each listed hour of the table,
the scalar `F` to every table hour not listed, and produces no capacity
entry at all for hours absent from the table — override entries for such
hours are ignored. -/
theorem C10_partial_override (tbl : Table) (F : Int) (oc : List (Hour × Int)) :
    (∀ (r : ℚ) (int_vars : Bool) (m : Model),
      buildModel tbl F r int_vars (some oc) = .ok m →
        m.caps = hourCapsEff tbl F (some oc)) ∧
    (∀ h ∈ hoursOf tbl,
      capLookup (hourCapsEff tbl F (some oc)) h = some ((capLookup oc h).getD F)) ∧
    (∀ h ∉ hoursOf tbl, capLookup (hourCapsEff tbl F (some oc)) h = none) := by
  refine ⟨?_, ?_, ?_⟩
  · intro r int_vars m hm
    unfold buildModel at hm
    cases hd : demList tbl (pairsOf tbl) with
    | error e => rw [hd] at hm; exact absurd hm (by simp)
    | ok dems =>
      rw [hd] at hm
      cases hm
      rfl
  · intro h hmem
    exact capLookup_mapped_mem (fun hh => (capLookup oc hh).getD F) (hoursOf tbl) h hmem
  · intro h hmem
    exact capLookup_mapped_not_mem (fun hh => (capLookup oc hh).getD F) (hoursOf tbl) h hmem

theorem C10_witness :
    ((1 : Int) ∈ hoursOf tbl4C) ∧
    capLookup (hourCapsEff tbl4C 3 (some [(1, 9), (5, 9)])) 1 =
      some ((capLookup [(1, 9), (5, 9)] 1).getD 3) ∧
    ((5 : Int) ∉ hoursOf tbl4C) ∧
    capLookup (hourCapsEff tbl4C 3 (some [(1, 9), (5, 9)])) 5 = none ∧
    (buildModel tbl4C 3 2 true (some [(1, 9), (5, 9)]) =
      .ok (mkModelC tbl4C 3 2 true (some [(1, 9), (5, 9)]))) ∧
    (mkModelC tbl4C 3 2 true (some [(1, 9), (5, 9)])).caps =
      hourCapsEff tbl4C 3 (some [(1, 9), (5, 9)]) :=
  ⟨by decide,
    (C10_partial_override tbl4C 3 [(1, 9), (5, 9)]).2.1 1 (by decide),
    by decide,
    (C10_partial_override tbl4C 3 [(1, 9), (5, 9)]).2.2 5 (by decide),
    rfl,
    (C10_partial_override tbl4C 3 [(1, 9), (5, 9)]).1 2 true
      (mkModelC tbl4C 3 2 true (some [(1, 9), (5, 9)])) rfl⟩

lemma normCol_need : ∀ n ∈ needCols, normCol n = n := by decide

lemma containsPred_iff (cols : List String) (n : String) :
    (!(colKeys cols).contains n && !cols.contains n) = true ↔
      (n ∉ colKeys cols ∧ n ∉ cols) := by
  simp

lemma missingCol_none_iff (cols : List String) :
    missingCol cols = none ↔ ∀ n ∈ needCols, n ∈ colKeys cols := by
  unfold missingCol
  rw [List.find?_eq_none]
  constructor
  · intro hall n hn
    by_contra hnot
    have hraw : n ∉ cols := by
      intro hmem
      have hmap := List.mem_map_of_mem normCol hmem
      rw [normCol_need n hn] at hmap
      exact hnot hmap
    exact hall n hn ((containsPred_iff cols n).mpr ⟨hnot, hraw⟩)
  · intro hall n hn hpred
    exact ((containsPred_iff cols n).mp hpred).1 (hall n hn)

/-- C9: loading validates the three required columns up to lower-cased,
whitespace-trimmed matching of column names: validation succeeds exactly when
each required field matches some column, and otherwise it fails with a
`ValueError` whose message names a missing field and lists the columns
actually present. -/
theorem C9_column_validation (path : String) (cols : List String) :
    ((load_demand_check path cols).isOk = true ↔ ∀ n ∈ needCols, n ∈ colKeys cols) ∧
    ∀ n, missingCol cols = some n →
      n ∈ needCols ∧ n ∉ colKeys cols ∧
      load_demand_check path cols = .error (colMsg n path cols) := by
  constructor
  · rw [← missingCol_none_iff]
    cases h : missingCol cols <;>
      simp [load_demand_check, h, Except.isOk, Except.toBool]
  · intro n hfind
    have hfind' : needCols.find?
        (fun s => !(colKeys cols).contains s && !cols.contains s) = some n := hfind
    refine ⟨List.mem_of_find?_eq_some hfind', ?_, ?_⟩
    · have hpred := List.find?_some hfind'
      exact ((containsPred_iff cols n).mp hpred).1
    · unfold load_demand_check
      rw [hfind]

theorem C9_witness :
    missingCol ["Pickup_Community_Area", "HOUR ", "dem"] = some "demand" ∧
    ("demand" ∈ needCols ∧
      "demand" ∉ colKeys ["Pickup_Community_Area", "HOUR ", "dem"] ∧
      load_demand_check "hourly_zone_demand.csv" ["Pickup_Community_Area", "HOUR ", "dem"] =
        .error (colMsg "demand" "hourly_zone_demand.csv"
          ["Pickup_Community_Area", "HOUR ", "dem"])) :=
  ⟨by decide,
    (C9_column_validation "hourly_zone_demand.csv"
      ["Pickup_Community_Area", "HOUR ", "dem"]).2 "demand" (by decide)⟩

lemma sweep_nil_F (solver : Solver) (tbl : Table) (int_vars : Bool) :
    ∀ rs : List ℚ, sweep solver tbl int_vars [] rs = .ok []
  | [] => rfl
  | r :: rs => by
    have ih := sweep_nil_F solver tbl int_vars rs
    simp [sweep, rowsForR, ih, Except.map]

/-- C7, counterexample: with a non-empty table and an empty throughput grid,
the sweep collects no records and the final `pd.DataFrame([]).sort_values`
raises `KeyError` — the runner errors instead of returning an empty
sequence. -/
theorem C7_cex_empty_grid_raises :
    run_sensitivity cSolver tbl1C [1] [] true = .error emptySortError := rfl

/-- C7, amended: with an empty capacity grid or an empty rate grid the loops
produce no summary records, and the runner then fails with the pandas
`KeyError` raised by sorting the empty, columnless record frame — it never
returns an empty result sequence. -/
theorem C7_empty_grid_errors (solver : Solver) (tbl : Table) (F_grid : List Int)
    (r_grid : List ℚ) (int_vars : Bool) (h : F_grid = [] ∨ r_grid = []) :
    run_sensitivity solver tbl F_grid r_grid int_vars = .error emptySortError := by
  rcases h with h | h
  · subst h
    unfold run_sensitivity
    rw [sweep_nil_F]
    rfl
  · subst h
    rfl

theorem C7_witness :
    (([] : List Int) = [] ∨ ([(1 : ℚ)] : List ℚ) = []) ∧
    run_sensitivity cSolver tbl1C [] [1] true = .error emptySortError :=
  ⟨Or.inl rfl, C7_empty_grid_errors cSolver tbl1C [] [1] true (Or.inl rfl)⟩

/-- The summaries the sweep is meant to collect: one per (F, r) pair of the
Cartesian grid, rate in the outer loop, capacity in the inner loop. -/
def sweepList (solver : Solver) (tbl : Table) (int_vars : Bool) (F_grid : List Int)
    (r_grid : List ℚ) : List Summary :=
  r_grid.flatMap (fun r => F_grid.map (fun F => (resC solver tbl F r int_vars none).summary))

lemma rowsForR_ok (solver : Solver) {tbl : Table} (hc : covers tbl = true)
    (int_vars : Bool) (r : ℚ) :
    ∀ Fs : List Int, rowsForR solver tbl int_vars r Fs =
      .ok (Fs.map (fun F => (resC solver tbl F r int_vars none).summary))
  | [] => rfl
  | F :: Fs => by
    have ih := rowsForR_ok solver hc int_vars r Fs
    unfold rowsForR
    rw [solve_ok solver hc, ih]
    rfl

lemma sweep_ok (solver : Solver) {tbl : Table} (hc : covers tbl = true)
    (int_vars : Bool) (F_grid : List Int) :
    ∀ rs : List ℚ, sweep solver tbl int_vars F_grid rs =
      .ok (sweepList solver tbl int_vars F_grid rs)
  | [] => rfl
  | r :: rs => by
    have ih := sweep_ok solver hc int_vars F_grid rs
    unfold sweep
    rw [rowsForR_ok solver hc, ih]
    rfl

lemma sweepList_length (solver : Solver) (tbl : Table) (int_vars : Bool) (F_grid : List Int) :
    ∀ rs : List ℚ, (sweepList solver tbl int_vars F_grid rs).length =
      rs.length * F_grid.length
  | [] => by simp [sweepList]
  | r :: rs => by
    have ih := sweepList_length solver tbl int_vars F_grid rs
    simp only [sweepList, List.flatMap_cons] at ih ⊢
    rw [List.length_append, List.length_map, ih, List.length_cons, Nat.succ_mul,
      Nat.add_comm]

lemma sweepList_ne_nil (solver : Solver) (tbl : Table) (int_vars : Bool)
    {F_grid : List Int} {rs : List ℚ} (hF : F_grid ≠ []) (hr : rs ≠ []) :
    sweepList solver tbl int_vars F_grid rs ≠ [] := by
  intro hcon
  have hlen := congrArg List.length hcon
  rw [sweepList_length] at hlen
  rcases Nat.mul_eq_zero.mp hlen with h | h
  · exact hr (List.eq_nil_of_length_eq_zero h)
  · exact hF (List.eq_nil_of_length_eq_zero h)

/-- C4: on a covered table with non-empty grids, the sensitivity runner
returns exactly one summary record per (F, r) pair of the Cartesian product
— |F_grid| * |r_grid| records in total, a permutation of the per-pair
summaries — sorted ascending by (throughput rate, capacity). -/
theorem C4_grid_sweep (solver : Solver) (tbl : Table) (F_grid : List Int)
    (r_grid : List ℚ) (int_vars : Bool) (hc : covers tbl = true)
    (hF : F_grid ≠ []) (hr : r_grid ≠ []) :
    ∃ l, run_sensitivity solver tbl F_grid r_grid int_vars = .ok l ∧
      l.length = F_grid.length * r_grid.length ∧
      l.Perm (sweepList solver tbl int_vars F_grid r_grid) ∧
      List.Sorted sensLE l := by
  refine ⟨List.insertionSort sensLE (sweepList solver tbl int_vars F_grid r_grid),
    ?_, ?_, ?_, ?_⟩
  · unfold run_sensitivity
    rw [sweep_ok solver hc]
    have hne : (sweepList solver tbl int_vars F_grid r_grid).isEmpty = false := by
      rw [List.isEmpty_eq_false]
      exact sweepList_ne_nil solver tbl int_vars hF hr
    simp [hne]
  · rw [List.length_insertionSort, sweepList_length, Nat.mul_comm]
  · exact List.perm_insertionSort sensLE _
  · exact List.sorted_insertionSort sensLE _

theorem C4_witness :
    covers tbl4C = true ∧ ([3, 1] : List Int) ≠ [] ∧ ([(2 : ℚ)] : List ℚ) ≠ [] ∧
    (∃ l, run_sensitivity cSolver tbl4C [3, 1] [2] true = .ok l ∧
      l.length = ([3, 1] : List Int).length * ([(2 : ℚ)] : List ℚ).length ∧
      l.Perm (sweepList cSolver tbl4C true [3, 1] [2]) ∧
      List.Sorted sensLE l) :=
  ⟨by decide, by decide, by decide,
    C4_grid_sweep cSolver tbl4C [3, 1] [2] true (by decide) (by decide) (by decide)⟩

lemma mvRows_ok (solver : Solver) {tbl : Table} (hc : covers tbl = true) (F : Int)
    (r : ℚ) (delta : Int) (int_vars : Bool) (b : ℚ) (hours : List Hour) :
    ∀ hs : List Hour, mvRows solver tbl F r delta int_vars b hours hs =
      .ok (hs.map (fun h => (⟨h, delta, b -
        (resC solver tbl F r int_vars
          (some (capsFor hours h F delta))).summary.objective_unmet⟩ : MVRow)))
  | [] => rfl
  | h :: hs => by
    have ih := mvRows_ok solver hc F r delta int_vars b hours hs
    unfold mvRows
    rw [solve_ok solver hc, ih]
    rfl

/-- C5: on a covered, non-empty table the marginal-value analyzer solves a
baseline with uniform capacity `F` and, independently for each hour `h` of
the hour set, one solve whose effective capacity schedule is `F + delta` at
`h` and `F` at every other hour; it records
`unmet_reduction(h) = baseline_unmet - unmet(h)` and returns one row per
hour, sorted by hour ascending. -/
theorem C5_marginal_per_hour (solver : Solver) (tbl : Table) (F : Int) (r : ℚ)
    (delta : Int) (int_vars : Bool) (hc : covers tbl = true) (hne : tbl ≠ []) :
    ∃ out, marginal_value_per_hour solver tbl F r delta int_vars = .ok out ∧
      out.length = (hoursOf tbl).length ∧
      List.Sorted mvLE out ∧
      ∀ h ∈ hoursOf tbl,
        ((⟨h, delta, objectiveAt solver tbl F r int_vars none -
          objectiveAt solver tbl F r int_vars
            (some (capsFor (hoursOf tbl) h F delta))⟩ : MVRow) ∈ out ∧
        ∀ hh ∈ hoursOf tbl,
          capLookup (hourCapsEff tbl F (some (capsFor (hoursOf tbl) h F delta))) hh =
            some (if hh = h then F + delta else F)) := by
  have hh0 : hoursOf tbl ≠ [] := hoursOf_ne_nil hne
  have hLne : ((hoursOf tbl).map (fun h => (⟨h, delta,
      (resC solver tbl F r int_vars none).summary.objective_unmet -
      (resC solver tbl F r int_vars
        (some (capsFor (hoursOf tbl) h F delta))).summary.objective_unmet⟩ : MVRow))).isEmpty
        = false := by
    rw [List.isEmpty_eq_false]
    simp only [ne_eq, List.map_eq_nil_iff]
    exact hh0
  refine ⟨List.insertionSort mvLE ((hoursOf tbl).map (fun h => (⟨h, delta,
      (resC solver tbl F r int_vars none).summary.objective_unmet -
      (resC solver tbl F r int_vars
        (some (capsFor (hoursOf tbl) h F delta))).summary.objective_unmet⟩ : MVRow))),
    ?_, ?_, ?_, ?_⟩
  · unfold marginal_value_per_hour
    simp only [solve_ok solver hc, mvRows_ok solver hc, hLne, Bool.false_eq_true, if_false]
  · rw [List.length_insertionSort, List.length_map]
  · exact List.sorted_insertionSort mvLE _
  · intro h hmem
    constructor
    · rw [objectiveAt_covers solver hc, objectiveAt_covers solver hc]
      exact (List.mem_insertionSort mvLE).mpr (List.mem_map_of_mem _ hmem)
    · intro hh hmem'
      have h1 : capLookup (hourCapsEff tbl F (some (capsFor (hoursOf tbl) h F delta))) hh =
          some ((capLookup (capsFor (hoursOf tbl) h F delta) hh).getD F) :=
        capLookup_mapped_mem
          (fun x => (capLookup (capsFor (hoursOf tbl) h F delta) x).getD F)
          (hoursOf tbl) hh hmem'
      have h2 : capLookup (capsFor (hoursOf tbl) h F delta) hh =
          some (if hh = h then F + delta else F) :=
        capLookup_mapped_mem (fun x => if x = h then F + delta else F)
          (hoursOf tbl) hh hmem'
      rw [h1, h2]
      rfl

theorem C5_witness :
    covers tbl4C = true ∧ tbl4C ≠ [] ∧
    (∃ out, marginal_value_per_hour cSolver tbl4C 3 2 1 true = .ok out ∧
      out.length = (hoursOf tbl4C).length ∧
      List.Sorted mvLE out ∧
      ∀ h ∈ hoursOf tbl4C,
        ((⟨h, 1, objectiveAt cSolver tbl4C 3 2 true none -
          objectiveAt cSolver tbl4C 3 2 true
            (some (capsFor (hoursOf tbl4C) h 3 1))⟩ : MVRow) ∈ out ∧
        ∀ hh ∈ hoursOf tbl4C,
          capLookup (hourCapsEff tbl4C 3 (some (capsFor (hoursOf tbl4C) h 3 1))) hh =
            some (if hh = h then 3 + 1 else 3))) :=
  ⟨by decide, by decide,
    C5_marginal_per_hour cSolver tbl4C 3 2 1 true (by decide) (by decide)⟩

lemma feas_of_mem_allocCands {nA nH : ℕ} {cap : Fin nH → ℕ} {x : GridIx nA nH → ℕ}
    (hx : x ∈ allocCands nA nH cap) : feasAlloc nA nH cap x := by
  unfold allocCands at hx
  exact (Finset.mem_filter.mp hx).2

lemma optUnmet_anti_cap (nA nH : ℕ) (d : GridIx nA nH → ℚ) (r : ℚ)
    {cap cap' : Fin nH → ℕ} (hcap : ∀ j, cap j ≤ cap' j) :
    optUnmet nA nH d r cap' ≤ optUnmet nA nH d r cap := by
  obtain ⟨x, hx, hval⟩ :=
    Finset.exists_mem_eq_inf' (allocCands_nonempty nA nH cap) (unmetOfAlloc nA nH d r)
  have hfeas : feasAlloc nA nH cap x := feas_of_mem_allocCands hx
  have hfeas' : feasAlloc nA nH cap' x := fun j => le_trans (hfeas j) (hcap j)
  calc optUnmet nA nH d r cap'
      ≤ unmetOfAlloc nA nH d r x := Finset.inf'_le _ (mem_allocCands_of_feas hfeas')
    _ = optUnmet nA nH d r cap := hval.symm

lemma unmetOfAlloc_anti_rate (nA nH : ℕ) (d : GridIx nA nH → ℚ) {r r' : ℚ}
    (hr : r ≤ r') (x : GridIx nA nH → ℕ) :
    unmetOfAlloc nA nH d r' x ≤ unmetOfAlloc nA nH d r x := by
  unfold unmetOfAlloc
  refine Finset.sum_le_sum (fun p _ => ?_)
  have hx : (0 : ℚ) ≤ (x p : ℚ) := Nat.cast_nonneg _
  have hmul : r * (x p : ℚ) ≤ r' * (x p : ℚ) := mul_le_mul_of_nonneg_right hr hx
  exact max_le_max (le_refl 0) (by linarith)

lemma optUnmet_anti_rate (nA nH : ℕ) (d : GridIx nA nH → ℚ) {r r' : ℚ}
    (hr : r ≤ r') (cap : Fin nH → ℕ) :
    optUnmet nA nH d r' cap ≤ optUnmet nA nH d r cap := by
  obtain ⟨x, hx, hval⟩ :=
    Finset.exists_mem_eq_inf' (allocCands_nonempty nA nH cap) (unmetOfAlloc nA nH d r)
  calc optUnmet nA nH d r' cap
      ≤ unmetOfAlloc nA nH d r' x := Finset.inf'_le _ hx
    _ ≤ unmetOfAlloc nA nH d r x := unmetOfAlloc_anti_rate nA nH d hr x
    _ = optUnmet nA nH d r cap := hval.symm

/-- C6: under exact (optimal) solving of the built model, the optimal total
unmet demand is non-increasing in capacity and in throughput: raising the
capacity schedule pointwise never increases it, raising the rate never
increases it, and bumping one hour's capacity by `delta > 0` gives
`unmet_reduction(h) = optUnmet(cap) - optUnmet(cap + delta at h) ≥ 0`. -/
theorem C6_monotonicity (nA nH : ℕ) (d : GridIx nA nH → ℚ) (r r' : ℚ)
    (cap cap' : Fin nH → ℕ) (delta : ℕ) (h : Fin nH) :
    ((∀ j, cap j ≤ cap' j) → optUnmet nA nH d r cap' ≤ optUnmet nA nH d r cap) ∧
    (r ≤ r' → optUnmet nA nH d r' cap ≤ optUnmet nA nH d r cap) ∧
    (0 < delta → 0 ≤ optUnmet nA nH d r cap -
      optUnmet nA nH d r (fun j => if j = h then cap j + delta else cap j)) := by
  refine ⟨fun hcap => optUnmet_anti_cap nA nH d r hcap,
    fun hr => optUnmet_anti_rate nA nH d hr cap, fun _ => ?_⟩
  rw [sub_nonneg]
  refine optUnmet_anti_cap nA nH d r (fun j => ?_)
  by_cases hj : j = h
  · simp [hj]
  · simp [hj]

theorem C6_witness :
    (∀ _j : Fin 1, (1 : ℕ) ≤ 2) ∧ ((1 : ℚ) ≤ 2) ∧ (0 < 1) ∧
    optUnmet 1 1 (fun _ => 2) 1 (fun _ => 2) ≤ optUnmet 1 1 (fun _ => 2) 1 (fun _ => 1) ∧
    optUnmet 1 1 (fun _ => 2) 2 (fun _ => 1) ≤ optUnmet 1 1 (fun _ => 2) 1 (fun _ => 1) ∧
    0 ≤ optUnmet 1 1 (fun _ => 2) 1 (fun _ => 1) -
      optUnmet 1 1 (fun _ => 2) 1 (fun j : Fin 1 => if j = 0 then 1 + 1 else 1) :=
  ⟨by decide, by decide, by decide,
    (C6_monotonicity 1 1 (fun _ => 2) 1 2 (fun _ => 1) (fun _ => 2) 1 0).1 (by decide),
    (C6_monotonicity 1 1 (fun _ => 2) 1 2 (fun _ => 1) (fun _ => 2) 1 0).2.1 (by decide),
    (C6_monotonicity 1 1 (fun _ => 2) 1 2 (fun _ => 1) (fun _ => 2) 1 0).2.2 (by decide)⟩

end TaxiAlloc
